import Mathlib

/-!
Verification of the SMS-SERVICE message pipeline: a shallow embedding of the
zero-copy batch codec, the partition router, the ingestion batcher, the two
consumer loops and their collaborator boundaries, with theorems settling the
behavioural claims of the specification against the source.

Conventions: machine integers are modelled as Nat with explicit reduction
modulo 2^32 or 2^64 where the Rust code wraps; fallible operations return
Except; external collaborators (serde_json, the iggy broker, the Turso store,
the Groq API, SignalWire) enter as explicit outcome parameters, while every
control-flow decision made by the repository code is translated directly.
-/

/-- Bytes are modelled as natural numbers; a payload is a list of bytes. -/
abbrev Byte := Nat

/-- A contiguous byte buffer. -/
abbrev ByteSeq := List Byte

/-- Modulus of the 32-bit offsets of the batch index (Rust u32 arithmetic wraps
in release builds). -/
def U32MOD : Nat := 2 ^ 32

/-- src/zero_copy.rs, struct MessageBatch. The 4-byte little-endian index
entries written by put_u32_le and read back by get_u32_le are modelled as the
list of decoded u32 values; messages is the concatenated payload buffer. -/
structure MessageBatch where
  indexes : List Nat
  messages : ByteSeq
  count : Nat
deriving DecidableEq, Repr

/-- Index construction of MessageBatch::from_messages: each message contributes
its running offset, and the offset advances by the message length with u32
wrap-around (offset += msg.len() as u32). -/
def buildIndexes : List ByteSeq → Nat → List Nat
  | [], _ => []
  | m :: rest, off => off :: buildIndexes rest ((off + m.length % U32MOD) % U32MOD)

/-- src/zero_copy.rs, MessageBatch::from_messages. -/
def MessageBatch.from_messages (msgs : List ByteSeq) : MessageBatch :=
  { indexes := buildIndexes msgs 0
    messages := msgs.flatten
    count := msgs.length }

/-- src/zero_copy.rs, MessageBatch::get: an out-of-range index yields none;
otherwise index entry i is the start offset, entry i+1 (or the payload length
for the final message) the end offset, and the payload is sliced. The slice is
modelled by drop and take; the companion MessageBatch.getPanics records the
inputs on which the Rust code panics rather than returning. -/
def MessageBatch.get (b : MessageBatch) (i : Nat) : Option ByteSeq :=
  if b.count ≤ i then none
  else
    let start := (b.indexes[i]?).getD 0
    let stop := if i + 1 < b.count then (b.indexes[i + 1]?).getD 0 else b.messages.length
    some ((b.messages.drop start).take (stop - start))

/-- The conditions under which the Rust MessageBatch::get panics: reading an
index entry past the end of the index buffer (Bytes::advance or get_u32_le on
insufficient data), or Bytes::slice with start greater than end or end past the
payload length. -/
def MessageBatch.getPanics (b : MessageBatch) (i : Nat) : Bool :=
  if b.count ≤ i then false
  else
    match b.indexes[i]? with
    | none => true
    | some start =>
      if i + 1 < b.count then
        match b.indexes[i + 1]? with
        | none => true
        | some stop => decide (stop < start) || decide (b.messages.length < stop)
      else decide (b.messages.length < start)

/-- src/zero_copy.rs, struct MessageBatchIterator. -/
structure MessageBatchIterator where
  indexes : List Nat
  messages : ByteSeq
  current : Nat
  count : Nat
deriving DecidableEq, Repr

/-- src/zero_copy.rs, MessageBatch::iter. -/
def MessageBatch.iter (b : MessageBatch) : MessageBatchIterator :=
  { indexes := b.indexes, messages := b.messages, current := 0, count := b.count }

/-- src/zero_copy.rs, MessageBatchIterator::next: get_u32_le consumes the next
index entry (the advancing read is modelled by taking the tail); the end offset
is peeked from a clone without consuming it. -/
def MessageBatchIterator.next (it : MessageBatchIterator) :
    Option (ByteSeq × MessageBatchIterator) :=
  if it.count ≤ it.current then none
  else
    let start := it.indexes.headD 0
    let rest := it.indexes.tail
    let stop := if it.current + 1 < it.count then rest.headD 0 else it.messages.length
    some ((it.messages.drop start).take (stop - start),
      { indexes := rest, messages := it.messages, current := it.current + 1, count := it.count })

/-- Drive the iterator: collect successive next results while fuel lasts (next
returns none once current reaches count, so count - current fuel is exact). -/
def MessageBatchIterator.collect : Nat → MessageBatchIterator → List ByteSeq
  | 0, _ => []
  | fuel + 1, it =>
    match it.next with
    | none => []
    | some (x, it2) => x :: MessageBatchIterator.collect fuel it2

/-- Everything the iterator yields, in order. -/
def MessageBatchIterator.toList (it : MessageBatchIterator) : List ByteSeq :=
  MessageBatchIterator.collect (it.count - it.current) it

/-- Total payload size of a list of messages. -/
def totalLen (msgs : List ByteSeq) : Nat := (msgs.map List.length).sum

/-- Index entries in the absence of u32 overflow: plain prefix sums of the
message lengths. -/
def idealIndexes : List ByteSeq → Nat → List Nat
  | [], _ => []
  | m :: rest, off => off :: idealIndexes rest (off + m.length)

/-- Length of the prefix of the payload occupied by the first i messages. -/
def psum (msgs : List ByteSeq) (i : Nat) : Nat := totalLen (msgs.take i)

theorem totalLen_nil : totalLen [] = 0 := rfl

theorem totalLen_cons (m : ByteSeq) (rest : List ByteSeq) :
    totalLen (m :: rest) = m.length + totalLen rest := by
  simp [totalLen]

theorem totalLen_append (a b : List ByteSeq) :
    totalLen (a ++ b) = totalLen a + totalLen b := by
  simp [totalLen]

theorem flatten_length (msgs : List ByteSeq) : msgs.flatten.length = totalLen msgs := by
  simp [totalLen, List.length_flatten]

theorem psum_zero (msgs : List ByteSeq) : psum msgs 0 = 0 := rfl

theorem psum_cons_succ (m : ByteSeq) (rest : List ByteSeq) (i : Nat) :
    psum (m :: rest) (i + 1) = m.length + psum rest i := by
  simp [psum, totalLen_cons]

theorem psum_le_totalLen (msgs : List ByteSeq) (i : Nat) : psum msgs i ≤ totalLen msgs := by
  have h := totalLen_append (msgs.take i) (msgs.drop i)
  rw [List.take_append_drop] at h
  simp [psum]
  omega

theorem psum_succ_of_lt (msgs : List ByteSeq) (i : Nat) (hi : i < msgs.length) :
    psum msgs (i + 1) = psum msgs i + msgs[i].length := by
  induction msgs generalizing i with
  | nil => simp at hi
  | cons m rest ih =>
    cases i with
    | zero => simp [psum_cons_succ, psum_zero]
    | succ j =>
      have hj : j < rest.length := by simpa using hi
      simp only [psum_cons_succ, ih j hj, List.getElem_cons_succ]
      omega

theorem psum_length (msgs : List ByteSeq) : psum msgs msgs.length = totalLen msgs := by
  simp [psum]

theorem buildIndexes_length (msgs : List ByteSeq) (off : Nat) :
    (buildIndexes msgs off).length = msgs.length := by
  induction msgs generalizing off with
  | nil => rfl
  | cons m rest ih => simp [buildIndexes, ih]

theorem buildIndexes_eq_ideal (msgs : List ByteSeq) (off : Nat)
    (h : off + totalLen msgs < U32MOD) : buildIndexes msgs off = idealIndexes msgs off := by
  induction msgs generalizing off with
  | nil => rfl
  | cons m rest ih =>
    rw [totalLen_cons] at h
    have hm : m.length % U32MOD = m.length := Nat.mod_eq_of_lt (by omega)
    have hoff : (off + m.length) % U32MOD = off + m.length := Nat.mod_eq_of_lt (by omega)
    simp only [buildIndexes, idealIndexes, hm, hoff]
    rw [ih (off + m.length) (by omega)]

theorem idealIndexes_getElem? (msgs : List ByteSeq) (off i : Nat) (hi : i < msgs.length) :
    (idealIndexes msgs off)[i]? = some (off + psum msgs i) := by
  induction msgs generalizing off i with
  | nil => simp at hi
  | cons m rest ih =>
    cases i with
    | zero => simp [idealIndexes, psum_zero]
    | succ j =>
      have hj : j < rest.length := by simpa using hi
      simp only [idealIndexes, List.getElem?_cons_succ, ih (off + m.length) j hj,
        psum_cons_succ]
      congr 1
      omega

theorem flatten_slice (msgs : List ByteSeq) (i : Nat) (hi : i < msgs.length) :
    (msgs.flatten.drop (psum msgs i)).take (psum msgs (i + 1) - psum msgs i) = msgs[i] := by
  induction msgs generalizing i with
  | nil => simp at hi
  | cons m rest ih =>
    cases i with
    | zero =>
      simp only [psum_zero, psum_cons_succ, List.flatten_cons, List.drop_zero,
        Nat.sub_zero, List.getElem_cons_zero, Nat.add_zero]
      exact List.take_left m rest.flatten
    | succ j =>
      have hj : j < rest.length := by simpa using hi
      simp only [psum_cons_succ, List.flatten_cons, List.getElem_cons_succ]
      rw [← List.drop_drop, List.drop_left, Nat.add_sub_add_left]
      exact ih j hj

theorem from_messages_get (msgs : List ByteSeq) (hfit : totalLen msgs < U32MOD)
    (i : Nat) (hi : i < msgs.length) :
    (MessageBatch.from_messages msgs).get i = some msgs[i] := by
  have hideal : buildIndexes msgs 0 = idealIndexes msgs 0 :=
    buildIndexes_eq_ideal msgs 0 (by omega)
  have hstart : (idealIndexes msgs 0)[i]? = some (psum msgs i) := by
    simpa using idealIndexes_getElem? msgs 0 i hi
  simp only [MessageBatch.from_messages, MessageBatch.get, hideal, Nat.not_le.mpr hi,
    if_false, hstart, Option.getD_some]
  by_cases hnext : i + 1 < msgs.length
  · have hstop : (idealIndexes msgs 0)[i + 1]? = some (psum msgs (i + 1)) := by
      simpa using idealIndexes_getElem? msgs 0 (i + 1) hnext
    simp only [hnext, if_true, hstop, Option.getD_some, flatten_slice msgs i hi]
  · have hlast : i + 1 = msgs.length := by omega
    simp only [hnext, if_false, flatten_length]
    rw [← psum_length msgs, ← hlast, flatten_slice msgs i hi]

theorem collect_ideal (rest : List ByteSeq) : ∀ (pre : ByteSeq) (cur total : Nat)
    (buf : ByteSeq), cur + rest.length = total → buf = pre ++ rest.flatten →
    MessageBatchIterator.collect (total - cur)
      { indexes := idealIndexes rest pre.length, messages := buf,
        current := cur, count := total } = rest := by
  induction rest with
  | nil =>
    intro pre cur total buf hct hbuf
    have hz : total - cur = 0 := by simp at hct; omega
    simp [hz, MessageBatchIterator.collect]
  | cons m rest2 ih =>
    intro pre cur total buf hct hbuf
    have hfuel : total - cur = rest2.length + 1 := by simp at hct; omega
    have hcur : cur < total := by simp at hct; omega
    have hstop : (if cur + 1 < total then (idealIndexes rest2 (pre.length + m.length)).headD 0
        else buf.length) = pre.length + m.length := by
      cases rest2 with
      | nil =>
        have : ¬ cur + 1 < total := by simp at hct; omega
        simp [this, hbuf]
      | cons m2 rest3 =>
        have : cur + 1 < total := by simp at hct; omega
        simp [this, idealIndexes]
    have hitem : (buf.drop pre.length).take (pre.length + m.length - pre.length) = m := by
      rw [hbuf, List.flatten_cons, Nat.add_sub_cancel_left, List.drop_left, List.take_left]
    rw [hfuel]
    simp only [MessageBatchIterator.collect, MessageBatchIterator.next,
      Nat.not_le.mpr hcur, if_false, idealIndexes, List.headD_cons, List.tail_cons, hstop,
      hitem]
    have hrec := ih (pre ++ m) (cur + 1) total buf
      (by simp at hct ⊢; omega)
      (by rw [hbuf, List.flatten_cons, List.append_assoc])
    rw [List.length_append] at hrec
    have hfuel2 : total - (cur + 1) = rest2.length := by simp at hct; omega
    rw [hfuel2] at hrec
    rw [hrec]

/-- C3 (amended): for every non-empty list of byte-slices whose total size is
below 2^32 (so the u32 index offsets do not wrap), encoding with
MessageBatch::from_messages and reading back round-trips: get i returns exactly
the i-th original slice for every i below the list length, and iterating the
batch yields exactly the original list in its original order. -/
theorem messageBatch_roundtrip_within_u32 (msgs : List ByteSeq)
    (_hne : msgs ≠ []) (hfit : totalLen msgs < U32MOD) :
    (∀ i (hi : i < msgs.length), (MessageBatch.from_messages msgs).get i = some msgs[i]) ∧
    (MessageBatch.from_messages msgs).iter.toList = msgs := by
  constructor
  · exact fun i hi => from_messages_get msgs hfit i hi
  · have hideal := buildIndexes_eq_ideal msgs 0 (by omega)
    have h := collect_ideal msgs [] 0 msgs.length msgs.flatten (by simp) (by simp)
    simp only [MessageBatch.iter, MessageBatch.from_messages, MessageBatchIterator.toList]
    simp only [hideal]
    simpa using h

/-- Witness for the round-trip theorem at the concrete batch [[1, 2], [3]]. -/
theorem messageBatch_roundtrip_within_u32_witness :
    (MessageBatch.from_messages [[1, 2], [3]]).get 0 = some [1, 2] ∧
    (MessageBatch.from_messages [[1, 2], [3]]).get 1 = some [3] ∧
    (MessageBatch.from_messages [[1, 2], [3]]).iter.toList = [[1, 2], [3]] := by
  have h := messageBatch_roundtrip_within_u32 [[1, 2], [3]] (by decide) (by decide)
  exact ⟨h.1 0 (by decide), h.1 1 (by decide), h.2⟩

/-- Unfolded form of MessageBatch.get on an explicit record, used to evaluate
the counterexamples without forcing the payload field. -/
theorem MessageBatch.get_eq (idx : List Nat) (pay : ByteSeq) (n i : Nat) :
    MessageBatch.get ⟨idx, pay, n⟩ i =
      if n ≤ i then none
      else some ((pay.drop ((idx[i]?).getD 0)).take
        ((if i + 1 < n then (idx[i + 1]?).getD 0 else pay.length) - (idx[i]?).getD 0)) := rfl

/-- On a batch with index entries [0, 0] and count 2, get 1 returns the whole
payload: the start offset read from the wrapped index is 0. -/
theorem get_one_of_wrapped_index (pay : ByteSeq) :
    MessageBatch.get ⟨[0, 0], pay, 2⟩ 1 = some pay := by
  rw [MessageBatch.get_eq]
  norm_num

/-- A two-slice batch whose first slice holds 2^32 bytes: the second index entry
wraps to 0 when written as u32. -/
def overflowMsgs : List ByteSeq := [List.replicate U32MOD 0, [7]]

/-- C3 counterexample: on the non-empty list overflowMsgs, get 1 does not return
the second original slice [7]; the wrapped index makes it return the whole
2^32 + 1 byte payload instead, so the unconditional round-trip claim is false. -/
theorem messageBatch_roundtrip_fails_on_u32_overflow :
    overflowMsgs ≠ [] ∧ 1 < overflowMsgs.length ∧
    (MessageBatch.from_messages overflowMsgs).get 1 ≠ some [7] := by
  have hidx : buildIndexes overflowMsgs 0 = [0, 0] := by
    simp only [overflowMsgs, buildIndexes, List.length_replicate]
    norm_num
  have hlen2 : overflowMsgs.length = 2 := by simp [overflowMsgs]
  have hfm : MessageBatch.from_messages overflowMsgs = ⟨[0, 0], overflowMsgs.flatten, 2⟩ := by
    unfold MessageBatch.from_messages
    rw [hidx, hlen2]
  have hget : (MessageBatch.from_messages overflowMsgs).get 1 = some overflowMsgs.flatten := by
    rw [hfm]
    exact get_one_of_wrapped_index overflowMsgs.flatten
  have hflatlen : overflowMsgs.flatten.length = U32MOD + 1 := by
    rw [flatten_length]
    simp [overflowMsgs, totalLen]
  refine ⟨?_, by omega, ?_⟩
  · intro hc
    rw [hc] at hlen2
    simp at hlen2
  rw [hget]
  intro hcontra
  have h2 := congrArg List.length (Option.some.inj hcontra)
  rw [hflatlen] at h2
  norm_num [U32MOD] at h2

/-- C9 (amended): the out-of-range contract holds unconditionally (for any batch
and any index at or past count, get returns none and cannot panic), and for
batches built by from_messages from messages totalling fewer than 2^32 bytes,
get returns a byte-slice and cannot panic on every in-range index. -/
theorem messageBatch_get_total_within_u32 :
    (∀ (b : MessageBatch) (i : Nat), b.count ≤ i →
      b.get i = none ∧ b.getPanics i = false) ∧
    (∀ (msgs : List ByteSeq), totalLen msgs < U32MOD → ∀ (i : Nat), i < msgs.length →
      ((MessageBatch.from_messages msgs).get i).isSome = true ∧
      (MessageBatch.from_messages msgs).getPanics i = false) := by
  constructor
  · intro b i h
    simp [MessageBatch.get, MessageBatch.getPanics, h]
  · intro msgs hfit i hi
    constructor
    · rw [from_messages_get msgs hfit i hi]
      rfl
    · have hideal := buildIndexes_eq_ideal msgs 0 (by omega)
      have hstart : (idealIndexes msgs 0)[i]? = some (psum msgs i) := by
        simpa using idealIndexes_getElem? msgs 0 i hi
      simp only [MessageBatch.getPanics, MessageBatch.from_messages, hideal, hstart,
        Nat.not_le.mpr hi, if_false]
      by_cases hnext : i + 1 < msgs.length
      · have hstop : (idealIndexes msgs 0)[i + 1]? = some (psum msgs (i + 1)) := by
          simpa using idealIndexes_getElem? msgs 0 (i + 1) hnext
        have hmono : ¬ psum msgs (i + 1) < psum msgs i := by
          rw [psum_succ_of_lt msgs i hi]; omega
        simp [hnext, hstop, hmono]
        simpa [totalLen] using psum_le_totalLen msgs (i + 1)
      · simp [hnext]
        simpa [totalLen] using psum_le_totalLen msgs i

/-- Witness for the get-safety theorem at the concrete batch [[1], [2, 3]]. -/
theorem messageBatch_get_total_within_u32_witness :
    ((MessageBatch.from_messages [[1], [2, 3]]).get 0).isSome = true ∧
    (MessageBatch.from_messages [[1], [2, 3]]).getPanics 0 = false ∧
    (MessageBatch.from_messages [[1], [2, 3]]).get 5 = none ∧
    (MessageBatch.from_messages [[1], [2, 3]]).getPanics 5 = false := by
  obtain ⟨hgen, hwf⟩ := messageBatch_get_total_within_u32
  exact ⟨(hwf [[1], [2, 3]] (by decide) 0 (by decide)).1,
    (hwf [[1], [2, 3]] (by decide) 0 (by decide)).2,
    (hgen (MessageBatch.from_messages [[1], [2, 3]]) 5 (by decide)).1,
    (hgen (MessageBatch.from_messages [[1], [2, 3]]) 5 (by decide)).2⟩

/-- Unfolded form of MessageBatch.getPanics on an explicit record, used to
evaluate the counterexample without forcing the payload field. -/
theorem MessageBatch.getPanics_eq (idx : List Nat) (pay : ByteSeq) (n i : Nat) :
    MessageBatch.getPanics ⟨idx, pay, n⟩ i =
      if n ≤ i then false
      else
        match idx[i]? with
        | none => true
        | some start =>
          if i + 1 < n then
            match idx[i + 1]? with
            | none => true
            | some stop => decide (stop < start) || decide (pay.length < stop)
          else decide (pay.length < start) := rfl

/-- On a batch with the out-of-order index entries [0, 5, 1] and count 3, get 1
reads start 5 and end 1, hitting the panicking Bytes::slice call. -/
theorem getPanics_one_of_wrapped_index (pay : ByteSeq) :
    MessageBatch.getPanics ⟨[0, 5, 1], pay, 3⟩ 1 = true := by
  rw [MessageBatch.getPanics_eq]
  norm_num

/-- A three-slice batch whose middle slice pushes the running u32 offset past
2^32: the index entries become [0, 5, 1], out of order. -/
def panicMsgs : List ByteSeq := [List.replicate 5 0, List.replicate (U32MOD - 4) 0, [7]]

/-- C9 counterexample: on the batch encoded from panicMsgs, the in-range call
get 1 hits Bytes::slice with start 5 and end 1, which panics in the Rust code,
so the claim that get never panics for any index is false. -/
theorem messageBatch_get_panics_on_overflowed_index :
    1 < (MessageBatch.from_messages panicMsgs).count ∧
    (MessageBatch.from_messages panicMsgs).getPanics 1 = true := by
  have hidx : buildIndexes panicMsgs 0 = [0, 5, 1] := by
    simp only [panicMsgs, buildIndexes, List.length_replicate]
    have h5 : (5 : Nat) % U32MOD = 5 := Nat.mod_eq_of_lt (by norm_num [U32MOD])
    have h4 : (U32MOD - 4) % U32MOD = U32MOD - 4 :=
      Nat.mod_eq_of_lt (by norm_num [U32MOD])
    rw [h5, h4]
    norm_num [U32MOD]
  have hlen3 : panicMsgs.length = 3 := by simp [panicMsgs]
  have hfm : MessageBatch.from_messages panicMsgs = ⟨[0, 5, 1], panicMsgs.flatten, 3⟩ := by
    unfold MessageBatch.from_messages
    rw [hidx, hlen3]
  have hcount : (MessageBatch.from_messages panicMsgs).count = 3 := by rw [hfm]
  refine ⟨by omega, ?_⟩
  rw [hfm]
  exact getPanics_one_of_wrapped_index panicMsgs.flatten

/-- src/message_broker.rs, struct SMSMessage. The Rust field names from and to
are Lean keywords and are rendered as from_addr and to_addr. The struct carries
no id field. -/
structure SMSMessage where
  from_addr : String
  to_addr : String
  body : String
  timestamp : Int
  conversation_id : String
deriving DecidableEq, Repr

/-- src/models.rs, enum MessageRole. -/
inductive MessageRole
  | user
  | assistant
deriving DecidableEq, Repr

/-- src/models.rs, MessageRole::as_str. -/
def MessageRole.as_str : MessageRole → String
  | .user => "user"
  | .assistant => "assistant"

/-- src/models.rs, MessageRole::from_str restricted to the exact strings stored
by this system (the Rust code lowercases first; the stored values are already
lowercase). -/
def MessageRole.from_str (s : String) : Option MessageRole :=
  if s = "user" then some .user
  else if s = "assistant" then some .assistant
  else none

/-- src/models.rs, struct Message: a row of the messages table (StoredMessage of
the spec). The id and created_at fields are produced by the uuid and clock
collaborators and are not modelled; list order stands in for created_at order,
matching the ORDER BY created_at ASC read in
ConversationStore::get_conversation_messages. -/
structure StoredMessage where
  conversation_id : String
  role : MessageRole
  content : String
deriving DecidableEq, Repr

/-- src/ai_service.rs, struct AIMessage. -/
structure AIMessage where
  role : String
  content : String
deriving DecidableEq, Repr

/-- Outcome of one HTTPS attempt inside AIService::generate_response: a 2xx
response with its extracted first-choice content, or a failure (non-2xx status
or transport error). -/
inductive AttemptResult
  | success (content : String)
  | failure (err : String)
deriving DecidableEq, Repr

/-- src/ai_service.rs, AIService::generate_response lines 80-124: the retry
loop makes at most 2 attempts; the first successful attempt returns its
content, and a failure of the second attempt surfaces the error. -/
def generate_response (attempt1 attempt2 : AttemptResult) : Except String String :=
  match attempt1 with
  | .success c => .ok c
  | .failure _ =>
    match attempt2 with
    | .success c => .ok c
    | .failure e => .error e

/-- src/ai_service.rs lines 61-70: the request body sent to the reply API keeps
at most the first 20 history entries and appends the new user message. -/
def build_request_messages (user_message : String) (history : List AIMessage) :
    List AIMessage :=
  history.take 20 ++ [{ role := "user", content := user_message }]

/-- src/consumers.rs, AIConsumer::process_message lines 236-247: drop the final
stored message (iter().take(len - 1), the turn currently being answered), map
roles to strings, then keep only the last 10 entries
(history.split_off(history.len() - 10)). -/
def buildHistory (messages : List StoredMessage) : List AIMessage :=
  let history := (messages.take (messages.length - 1)).map
    (fun m => { role := m.role.as_str, content := m.content : AIMessage })
  if 10 < history.length then history.drop (history.length - 10) else history

/-- The prior conversation turns as AI messages: everything the store returned
except the final row. -/
def priorAI (messages : List StoredMessage) : List AIMessage :=
  messages.dropLast.map (fun m => { role := m.role.as_str, content := m.content })

/-- Side effects recorded while a consumer processes messages: rows appended to
the messages table (in insertion order) and outbound SMS sends (recipient and
body, in send order). -/
structure World where
  stored : List StoredMessage
  sent : List (String × String)
deriving DecidableEq, Repr

/-- Outcomes of the external collaborators during one AIConsumer::process_message
call: the result of the history read, the two reply-generation attempts, and
whether the assistant-row insert and the SignalWire send succeed. -/
structure AIEnv where
  historyResult : Except String (List StoredMessage)
  attempt1 : AttemptResult
  attempt2 : AttemptResult
  storeOk : Bool
  sendOk : Bool
deriving Repr

/-- src/consumers.rs line 255: the fallback reply substituted when
generate_response fails (unwrap_or_else). -/
def FALLBACK_REPLY : String :=
  "Sorry, I'm having trouble right now. Please try again later."

/-- The reply text AIConsumer::process_message goes on to store and send: the
generated response, or the fallback apology when generate_response failed. -/
def aiReply (env : AIEnv) : String :=
  match generate_response env.attempt1 env.attempt2 with
  | .ok c => c
  | .error _ => FALLBACK_REPLY

/-- src/consumers.rs, AIConsumer::process_message lines 232-270: read the
conversation history (the ? operator propagates a store read failure before any
side effect), build the bounded history, generate the reply with the apology
fallback, insert the assistant row with the result discarded (let _ = ...),
then send the SMS (the ? operator propagates a send failure). The function
contains no idempotency-ledger lookup and SMSMessage carries no id to look up. -/
def AIConsumer.process_message (env : AIEnv) (sms : SMSMessage) (w : World) :
    World × Except String Unit :=
  match env.historyResult with
  | .error e => (w, .error e)
  | .ok messages =>
    let _history := buildHistory messages
    let ai_response := aiReply env
    let w1 := if env.storeOk then
        { w with stored := w.stored ++
            [{ conversation_id := sms.conversation_id, role := .assistant,
               content := ai_response }] }
      else w
    if env.sendOk then
      ({ w1 with sent := w1.sent ++ [(sms.from_addr, ai_response)] }, .ok ())
    else (w1, .error "SignalWire send failed")

/-- C8: the history handed to reply generation consists of the prior stored
messages of the conversation (everything the ORDER BY created_at ASC read
returned except the final row, which is the turn being answered), restricted to
the last 10 entries with their oldest-first order preserved; when at most 10
prior messages exist all of them are used. -/
theorem ai_history_last_ten_prior (messages : List StoredMessage) :
    buildHistory messages = (priorAI messages).drop ((priorAI messages).length - 10) ∧
    ((priorAI messages).length ≤ 10 → buildHistory messages = priorAI messages) ∧
    (buildHistory messages).length = min (priorAI messages).length 10 := by
  have hmap : (messages.take (messages.length - 1)).map
      (fun m => { role := m.role.as_str, content := m.content : AIMessage }) =
      priorAI messages := by
    rw [← List.dropLast_eq_take]
    rfl
  have hbh : buildHistory messages =
      if 10 < (priorAI messages).length then
        (priorAI messages).drop ((priorAI messages).length - 10)
      else priorAI messages := by
    simp only [buildHistory, hmap]
  by_cases hlen : 10 < (priorAI messages).length
  · rw [hbh, if_pos hlen]
    refine ⟨rfl, fun hle => absurd hle (by omega), ?_⟩
    rw [List.length_drop]
    omega
  · rw [hbh, if_neg hlen]
    have h0 : (priorAI messages).length - 10 = 0 := by omega
    exact ⟨by rw [h0, List.drop_zero], fun _ => rfl, by omega⟩

/-- Witness for the history-window theorem at a concrete 3-row conversation. -/
theorem ai_history_last_ten_prior_witness :
    buildHistory [⟨"c", .user, "a"⟩, ⟨"c", .assistant, "b"⟩, ⟨"c", .user, "d"⟩] =
      [{ role := "user", content := "a" }, { role := "assistant", content := "b" }] := by
  have h := (ai_history_last_ten_prior
    [⟨"c", .user, "a"⟩, ⟨"c", .assistant, "b"⟩, ⟨"c", .user, "d"⟩]).2.1 (by decide)
  rw [h]
  decide

/-- C7: when both reply-generation attempts fail and the assistant-row insert
and the SMS send succeed, process_message stores the fallback apology as the
assistant message, sends that same apology to the sender, and reports success. -/
theorem ai_consumer_fallback_apology (env : AIEnv) (sms : SMSMessage) (w : World)
    (e1 e2 : String) (msgs : List StoredMessage)
    (ha1 : env.attempt1 = .failure e1) (ha2 : env.attempt2 = .failure e2)
    (hh : env.historyResult = .ok msgs) (hs : env.storeOk = true)
    (hd : env.sendOk = true) :
    AIConsumer.process_message env sms w =
      ({ stored := w.stored ++
            [{ conversation_id := sms.conversation_id,
               role := .assistant, content := FALLBACK_REPLY }],
         sent := w.sent ++ [(sms.from_addr, FALLBACK_REPLY)] }, .ok ()) := by
  simp [AIConsumer.process_message, aiReply, generate_response, ha1, ha2, hh, hs, hd]

/-- A collaborator environment in which both reply attempts fail and everything
else succeeds. -/
def envBothFail : AIEnv :=
  { historyResult := .ok [], attempt1 := .failure "HTTP 500",
    attempt2 := .failure "HTTP 500", storeOk := true, sendOk := true }

/-- A concrete inbound SMS, as produced by the webhook handler. -/
def msgHi : SMSMessage :=
  { from_addr := "+15550100", to_addr := "+15550199", body := "Hi", timestamp := 0,
    conversation_id := "sms_15550100" }

/-- Witness for the fallback-apology theorem at a concrete message. -/
theorem ai_consumer_fallback_apology_witness :
    AIConsumer.process_message envBothFail msgHi ⟨[], []⟩ =
      ({ stored :=
            [{ conversation_id := "sms_15550100", role := .assistant,
               content := FALLBACK_REPLY }],
         sent := [("+15550100", FALLBACK_REPLY)] }, .ok ()) := by
  have h := ai_consumer_fallback_apology envBothFail msgHi ⟨[], []⟩ "HTTP 500" "HTTP 500" []
    rfl rfl rfl rfl rfl
  simpa [msgHi] using h

/-- C10: when the assistant-row insert fails but the send succeeds,
process_message still dispatches the reply and reports success; nothing is
recorded in the store. -/
theorem ai_consumer_ignores_store_failure (env : AIEnv) (sms : SMSMessage) (w : World)
    (msgs : List StoredMessage) (hh : env.historyResult = .ok msgs)
    (hs : env.storeOk = false) (hd : env.sendOk = true) :
    AIConsumer.process_message env sms w =
      ({ stored := w.stored, sent := w.sent ++ [(sms.from_addr, aiReply env)] }, .ok ()) := by
  simp [AIConsumer.process_message, hh, hs, hd]

/-- A collaborator environment in which the assistant-row insert fails while
reply generation and the send succeed. -/
def envStoreFail : AIEnv :=
  { historyResult := .ok [], attempt1 := .success "Hello!", attempt2 := .failure "x",
    storeOk := false, sendOk := true }

/-- Witness for the ignored-store-failure theorem at a concrete message. -/
theorem ai_consumer_ignores_store_failure_witness :
    AIConsumer.process_message envStoreFail msgHi ⟨[], []⟩ =
      ({ stored := [], sent := [("+15550100", "Hello!")] }, .ok ()) := by
  have h := ai_consumer_ignores_store_failure envStoreFail msgHi ⟨[], []⟩ [] rfl rfl rfl
  simpa [msgHi, envStoreFail, aiReply, generate_response] using h

/-- Number of assistant-role rows in a list of stored messages. -/
def countAssistant (l : List StoredMessage) : Nat :=
  (l.filter (fun m => decide (m.role = MessageRole.assistant))).length

/-- Collaborator outcomes for the first delivery of msgHi: the store holds only
the user turn, reply generation succeeds on the first attempt. -/
def envFirstPass : AIEnv :=
  { historyResult := .ok
      [{ conversation_id := "sms_15550100", role := .user, content := "Hi" }],
    attempt1 := .success "Hello!", attempt2 := .failure "unused",
    storeOk := true, sendOk := true }

/-- Collaborator outcomes for the redelivery of the same message: the store now
also holds the assistant turn written by the first pass. -/
def envSecondPass : AIEnv :=
  { historyResult := .ok
      [{ conversation_id := "sms_15550100", role := .user, content := "Hi" },
       { conversation_id := "sms_15550100", role := .assistant, content := "Hello!" }],
    attempt1 := .success "Hello!", attempt2 := .failure "unused",
    storeOk := true, sendOk := true }

/-- C1: AIConsumer::process_message performs no idempotency check (there is no
ledger anywhere in the code and SMSMessage carries no id), so delivering the
same message twice stores two assistant rows and sends two outbound SMS, both
passes reporting success; the second pass is not a no-op skip. -/
theorem ai_consumer_redelivery_duplicates_side_effects :
    countAssistant ((AIConsumer.process_message envSecondPass msgHi
        (AIConsumer.process_message envFirstPass msgHi ⟨[], []⟩).1).1).stored = 2 ∧
    ((AIConsumer.process_message envSecondPass msgHi
        (AIConsumer.process_message envFirstPass msgHi ⟨[], []⟩).1).1).sent =
      [("+15550100", "Hello!"), ("+15550100", "Hello!")] ∧
    (AIConsumer.process_message envFirstPass msgHi ⟨[], []⟩).2 = .ok () ∧
    (AIConsumer.process_message envSecondPass msgHi
        (AIConsumer.process_message envFirstPass msgHi ⟨[], []⟩).1).2 = .ok () := by
  exact ⟨rfl, rfl, rfl, rfl⟩

/-- A raw message payload as stored on the broker log. -/
abbrev Payload := ByteSeq

/-- State of the external broker for one consumer group: the partition log and
the committed offset of that group (spec section 6, consumer API). -/
structure BrokerState where
  log : List Payload
  offset : Nat
deriving DecidableEq, Repr

/-- Model of the external broker poll call (iggy poll_messages, spec section 6):
up to count messages starting at the committed offset are returned, and with
auto_commit = true the offset is committed as part of the poll itself, before
the caller sees a single message. -/
def poll_messages (autoCommit : Bool) (count : Nat) (b : BrokerState) :
    List Payload × BrokerState :=
  let msgs := (b.log.drop b.offset).take count
  (msgs, if autoCommit then { b with offset := b.offset + msgs.length } else b)

/-- src/consumers.rs, AIConsumer::poll_and_process lines 204-226, loop body:
each payload is deserialized, with the ? operator aborting the whole batch on a
decode failure, and then processed, with a process_message failure only logged
(if let Err) before moving to the next payload. The decoder (serde_json) and
the per-message collaborator outcomes are parameters. -/
def AIConsumer.processPolled (decode : Payload → Except String SMSMessage)
    (envOf : SMSMessage → AIEnv) :
    List Payload → World → World × Except String Unit
  | [], w => (w, .ok ())
  | p :: rest, w =>
    match decode p with
    | .error e => (w, .error e)
    | .ok sms =>
      AIConsumer.processPolled decode envOf rest
        (AIConsumer.process_message (envOf sms) sms w).1

/-- src/consumers.rs, AIConsumer::poll_and_process lines 181-230: poll with
auto_commit = true (the literal argument at line 195) and then process the
polled payloads; the broker has already committed the new offset when the
processing loop starts, and no commit call appears anywhere afterwards. -/
def AIConsumer.poll_and_process (decode : Payload → Except String SMSMessage)
    (envOf : SMSMessage → AIEnv) (b : BrokerState) (w : World) :
    BrokerState × World × Except String Unit :=
  let polled := poll_messages true 10 b
  let done := AIConsumer.processPolled decode envOf polled.1 w
  (polled.2, done.1, done.2)

/-- A decoder for which every payload is the valid message msgHi. -/
def decodeHi : Payload → Except String SMSMessage := fun _ => .ok msgHi

/-- Collaborator outcomes in which everything succeeds except the outbound
SMS dispatch. -/
def envSendFail : SMSMessage → AIEnv := fun _ =>
  { historyResult := .ok [], attempt1 := .success "Hello!", attempt2 := .failure "x",
    storeOk := true, sendOk := false }

/-- C2: polling with auto_commit = true advances the committed offset at poll
time, not after the side effects: on a log holding one message whose SMS
dispatch fails, the offset still moves from 0 to 1, no SMS is recorded as sent,
and the loop even reports success, so the message is lost rather than
redelivered. -/
theorem ai_consumer_commits_offset_before_side_effects :
    (AIConsumer.poll_and_process decodeHi envSendFail ⟨[[1]], 0⟩ ⟨[], []⟩).1.offset = 1 ∧
    (AIConsumer.poll_and_process decodeHi envSendFail ⟨[[1]], 0⟩ ⟨[], []⟩).2.1.sent = [] ∧
    (AIConsumer.poll_and_process decodeHi envSendFail ⟨[[1]], 0⟩ ⟨[], []⟩).2.2 = .ok () := by
  exact ⟨rfl, rfl, rfl⟩

/-- src/store.rs, struct Conversation: the created_at and updated_at fields come
from the clock collaborator and are not modelled. -/
structure Conversation where
  id : String
  title : Option String
deriving DecidableEq, Repr

/-- Outcomes of the store collaborator during one TursoConsumer::process_message
call: the conversation lookup, and whether the lazy conversation insert and the
user-row insert succeed. -/
structure TursoEnv where
  getConv : Except String (Option Conversation)
  createOk : Bool
  storeOk : Bool
deriving Repr

/-- Side effects recorded by the store consumer: conversation rows and message
rows, in insertion order. -/
structure TursoWorld where
  conversations : List Conversation
  stored : List StoredMessage
deriving DecidableEq, Repr

/-- src/consumers.rs, TursoConsumer::process_message lines 110-131: look up the
conversation, lazily create it with title "SMS: {from}" when absent, then
insert the user-role message under the conversation id; every failure
propagates via the ? operator. -/
def TursoConsumer.process_message (env : TursoEnv) (sms : SMSMessage)
    (w : TursoWorld) : TursoWorld × Except String Unit :=
  match env.getConv with
  | .error e => (w, .error e)
  | .ok found =>
    let step : Except String (Conversation × TursoWorld) :=
      match found with
      | some conv => .ok (conv, w)
      | none =>
        if env.createOk then
          let conv : Conversation :=
            { id := sms.conversation_id, title := some ("SMS: " ++ sms.from_addr) }
          .ok (conv, { w with conversations := w.conversations ++ [conv] })
        else .error "create_conversation_with_id failed"
    match step with
    | .error e => (w, .error e)
    | .ok (conv, w1) =>
      if env.storeOk then
        ({ w1 with stored := w1.stored ++
              [{ conversation_id := conv.id, role := .user, content := sms.body }] },
         .ok ())
      else (w1, .error "store_message failed")

/-- src/consumers.rs, TursoConsumer::poll_and_process lines 82-104, loop body:
deserialization failure propagates via the ? operator and aborts the batch; a
process_message failure is only logged (if let Err) and the loop continues. -/
def TursoConsumer.processPolled (decode : Payload → Except String SMSMessage)
    (envOf : SMSMessage → TursoEnv) :
    List Payload → TursoWorld → TursoWorld × Except String Unit
  | [], w => (w, .ok ())
  | p :: rest, w =>
    match decode p with
    | .error e => (w, .error e)
    | .ok sms =>
      TursoConsumer.processPolled decode envOf rest
        (TursoConsumer.process_message (envOf sms) sms w).1

/-- src/consumers.rs, TursoConsumer::start lines 45-57: both outcomes of
poll_and_process leave the outer loop running; an error is logged and followed
by a 1 second sleep, after which the loop polls again. -/
def TursoConsumer.handle_poll_result : Except String Unit → Bool
  | .ok _ => true
  | .error _ => true

/-- C6 (amended): in a polled batch, a process_message failure (store error) is
logged and the loop continues through every remaining message, and no failure
ever terminates the consumer loop; but a decode failure aborts the remaining
messages of the same poll batch, because the deserialization error propagates
out of poll_and_process. The three parts: (1) if every payload decodes, the
batch loop attempts every message and reports success regardless of per-message
store failures; (2) a payload that fails to decode makes the loop return that
error immediately, leaving the rest of the batch unprocessed; (3) the outer
start loop continues after both success and failure. -/
theorem turso_poll_batch_error_handling :
    (∀ (decode : Payload → Except String SMSMessage) (envOf : SMSMessage → TursoEnv)
        (ps : List Payload) (w : TursoWorld),
      (∀ p ∈ ps, ∃ sms, decode p = .ok sms) →
      (TursoConsumer.processPolled decode envOf ps w).2 = .ok ()) ∧
    (∀ (decode : Payload → Except String SMSMessage) (envOf : SMSMessage → TursoEnv)
        (p : Payload) (ps : List Payload) (w : TursoWorld) (e : String),
      decode p = .error e →
      TursoConsumer.processPolled decode envOf (p :: ps) w = (w, .error e)) ∧
    (∀ r : Except String Unit, TursoConsumer.handle_poll_result r = true) := by
  refine ⟨?_, ?_, ?_⟩
  · intro decode envOf ps
    induction ps with
    | nil => intro w _; rfl
    | cons p rest ih =>
      intro w h
      obtain ⟨sms, hsms⟩ := h p (by simp)
      simp only [TursoConsumer.processPolled, hsms]
      exact ih _ (fun q hq => h q (by simp [hq]))
  · intro decode envOf p ps w e hp
    simp only [TursoConsumer.processPolled, hp]
  · intro r
    cases r <;> rfl

/-- The serde_json boundary for the counterexamples: the empty payload is
undecodable, every other payload decodes to msgHi. -/
def decodeEmptyFails : Payload → Except String SMSMessage :=
  fun p => if p.isEmpty then .error "Failed to deserialize SMS message" else .ok msgHi

/-- Store outcomes in which everything succeeds and the conversation exists. -/
def tursoEnvOk : SMSMessage → TursoEnv :=
  fun _ => { getConv := .ok (some { id := "sms_15550100", title := none }),
             createOk := true, storeOk := true }

/-- C6 counterexample: a poll batch holding an undecodable payload followed by
a well-formed one. The loop aborts at the first payload and never stores the
second message, although the second conjunct shows that same payload is
processed fine on its own: the remaining messages of the batch are not
processed, contradicting skip-and-log-then-continue. -/
theorem turso_decode_failure_aborts_rest_of_batch :
    TursoConsumer.processPolled decodeEmptyFails tursoEnvOk [[], [1]] ⟨[], []⟩ =
      (⟨[], []⟩, .error "Failed to deserialize SMS message") ∧
    (TursoConsumer.processPolled decodeEmptyFails tursoEnvOk [[1]] ⟨[], []⟩).1.stored =
      [{ conversation_id := "sms_15550100", role := .user, content := "Hi" }] := by
  exact ⟨rfl, rfl⟩

/-- Witness for the batch-error-handling theorem at concrete batches. -/
theorem turso_poll_batch_error_handling_witness :
    (TursoConsumer.processPolled decodeEmptyFails tursoEnvOk [[1], [2]] ⟨[], []⟩).2 =
      .ok () ∧
    TursoConsumer.processPolled decodeEmptyFails tursoEnvOk [[], [3], [4]] ⟨[], []⟩ =
      (⟨[], []⟩, .error "Failed to deserialize SMS message") ∧
    TursoConsumer.handle_poll_result (.error "poll failed") = true := by
  obtain ⟨h1, h2, h3⟩ := turso_poll_batch_error_handling
  refine ⟨h1 decodeEmptyFails tursoEnvOk [[1], [2]] ⟨[], []⟩ ?_,
    h2 decodeEmptyFails tursoEnvOk [] [[3], [4]] ⟨[], []⟩
      "Failed to deserialize SMS message" rfl,
    h3 _⟩
  intro p hp
  simp only [List.mem_cons, List.not_mem_nil, or_false] at hp
  rcases hp with h | h <;> rw [h] <;> exact ⟨msgHi, rfl⟩

/-- State of the MessageBatcher (src/sms_server.rs lines 29-58): the
mutex-guarded buffer and the batches handed to
MessageBroker::publish_sms_batch, in flush order. -/
structure BatcherState where
  buffer : List SMSMessage
  published : List (List SMSMessage)
deriving DecidableEq, Repr

/-- src/sms_server.rs, MessageBatcher::add_message lines 61-86: push the
message under the lock; when the buffer length has reached batch_size
(buffer.len() >= batch_size), swap the whole buffer out (mem::take) and
publish it as one batch outside the lock, otherwise publish nothing. -/
def MessageBatcher.add_message (batch_size : Nat) (m : SMSMessage)
    (s : BatcherState) : BatcherState :=
  let buffer := s.buffer ++ [m]
  if batch_size ≤ buffer.length then
    { buffer := [], published := s.published ++ [buffer] }
  else
    { s with buffer := buffer }

/-- src/sms_server.rs, MessageBatcher::flush_if_needed lines 89-105 (the timer
path): flush the entire buffer as one batch when it is non-empty. -/
def MessageBatcher.flush_if_needed (s : BatcherState) : BatcherState :=
  if s.buffer.isEmpty then s
  else { buffer := [], published := s.published ++ [s.buffer] }

/-- A sequence of add_message calls, in order. -/
def MessageBatcher.addAll (batch_size : Nat) (msgs : List SMSMessage)
    (s : BatcherState) : BatcherState :=
  msgs.foldl (fun acc m => MessageBatcher.add_message batch_size m acc) s

theorem add_message_eq (n : Nat) (m : SMSMessage) (buf : List SMSMessage)
    (pubs : List (List SMSMessage)) :
    MessageBatcher.add_message n m ⟨buf, pubs⟩ =
      if n ≤ buf.length + 1 then
        { buffer := [], published := pubs ++ [buf ++ [m]] }
      else { buffer := buf ++ [m], published := pubs } := by
  simp [MessageBatcher.add_message]

theorem addAll_from_buf (n : Nat) (msgs : List SMSMessage) :
    ∀ (buf : List SMSMessage) (pubs : List (List SMSMessage)),
      msgs ≠ [] → buf.length + msgs.length ≤ n →
      MessageBatcher.addAll n msgs ⟨buf, pubs⟩ =
        if buf.length + msgs.length = n then
          { buffer := [], published := pubs ++ [buf ++ msgs] }
        else { buffer := buf ++ msgs, published := pubs } := by
  induction msgs with
  | nil => intro buf pubs hne _; exact absurd rfl hne
  | cons m rest ih =>
    intro buf pubs _ hle
    simp only [List.length_cons, List.length_nil] at hle
    have hstep : MessageBatcher.addAll n (m :: rest) ⟨buf, pubs⟩ =
        MessageBatcher.addAll n rest (MessageBatcher.add_message n m ⟨buf, pubs⟩) := by
      simp [MessageBatcher.addAll]
    cases rest with
    | nil =>
      rw [hstep, add_message_eq]
      simp only [List.length_cons, List.length_nil]
      by_cases heq : buf.length + 1 = n
      · rw [if_pos (by omega), if_pos (by omega)]
        simp [MessageBatcher.addAll]
      · rw [if_neg (by omega), if_neg (by omega)]
        simp [MessageBatcher.addAll]
    | cons m2 rest2 =>
      rw [hstep, add_message_eq]
      have hlt : ¬ n ≤ buf.length + 1 := by
        simp only [List.length_cons, List.length_nil] at hle
        omega
      rw [if_neg hlt]
      have hne2 : (m2 :: rest2) ≠ ([] : List SMSMessage) := by simp
      have hle2 : (buf ++ [m]).length + (m2 :: rest2).length ≤ n := by
        simp only [List.length_append, List.length_cons, List.length_nil] at hle ⊢
        omega
      have ih2 := ih (buf ++ [m]) pubs hne2 hle2
      simp only [List.length_append, List.length_cons, List.length_nil,
        List.append_assoc, List.cons_append, List.nil_append] at ih2 ⊢
      rw [ih2]
      have harith : buf.length + 1 + (rest2.length + 1) =
          buf.length + (rest2.length + 1 + 1) := by omega
      rw [harith]

/-- C5: starting from an empty buffer with batch_size n, a run of add_message
calls appends each message in order and publishes nothing while the buffer
stays below n; exactly when the n-th message arrives the whole buffer (all n
messages, in insertion order) is flushed as a single batch and the buffer is
left empty. -/
theorem batcher_flushes_exactly_at_threshold (n : Nat) (msgs : List SMSMessage)
    (hn : 0 < n) (hle : msgs.length ≤ n) :
    MessageBatcher.addAll n msgs ⟨[], []⟩ =
      if msgs.length = n then { buffer := [], published := [msgs] }
      else { buffer := msgs, published := [] } := by
  cases msgs with
  | nil =>
    have h0 : ¬ ((0 : Nat) = n) := by omega
    simp [MessageBatcher.addAll, h0]
  | cons m rest =>
    have h := addAll_from_buf n (m :: rest) [] [] (by simp) (by simpa using hle)
    simpa using h

/-- Witness for the batcher theorem: with batch_size 5, five adds flush exactly
one batch of five and leave the buffer empty, while three adds publish
nothing. -/
theorem batcher_flushes_exactly_at_threshold_witness :
    MessageBatcher.addAll 5 (List.replicate 5 msgHi) ⟨[], []⟩ =
      { buffer := [], published := [List.replicate 5 msgHi] } ∧
    MessageBatcher.addAll 5 (List.replicate 3 msgHi) ⟨[], []⟩ =
      { buffer := List.replicate 3 msgHi, published := [] } := by
  constructor
  · have h := batcher_flushes_exactly_at_threshold 5 (List.replicate 5 msgHi)
      (by decide) (by simp)
    simpa using h
  · have h := batcher_flushes_exactly_at_threshold 5 (List.replicate 3 msgHi)
      (by decide) (by simp)
    simpa using h

/-- Reduction modulo 2^64, the wrap of Rust u64 arithmetic. -/
def wrap64 (x : Nat) : Nat := x % 2 ^ 64

/-- 64-bit left rotation of a value below 2^64. -/
def rotl64 (x n : Nat) : Nat := ((x <<< n) % 2 ^ 64) ||| (x >>> (64 - n))

/-- The four 64-bit words of the SipHash state. -/
structure SipState where
  v0 : Nat
  v1 : Nat
  v2 : Nat
  v3 : Nat
deriving DecidableEq, Repr

/-- One SipHash round (the SIPROUND of the std SipHasher13 behind
DefaultHasher). -/
def sipround (s : SipState) : SipState :=
  let v0 := wrap64 (s.v0 + s.v1)
  let v1 := rotl64 s.v1 13
  let v1 := v1 ^^^ v0
  let v0 := rotl64 v0 32
  let v2 := wrap64 (s.v2 + s.v3)
  let v3 := rotl64 s.v3 16
  let v3 := v3 ^^^ v2
  let v0 := wrap64 (v0 + v3)
  let v3 := rotl64 v3 21
  let v3 := v3 ^^^ v0
  let v2 := wrap64 (v2 + v1)
  let v1 := rotl64 v1 17
  let v1 := v1 ^^^ v2
  let v2 := rotl64 v2 32
  ⟨v0, v1, v2, v3⟩

/-- Little-endian 64-bit word from at most 8 bytes. -/
def toWordLE (bytes : List Nat) : Nat :=
  bytes.foldr (fun b acc => b + acc * 256) 0

/-- One SipHash-1-3 compression step: xor the word into v3, one round, xor the
word into v0. -/
def sipCompress (s : SipState) (m : Nat) : SipState :=
  let s1 := { s with v3 := s.v3 ^^^ m }
  let s2 := sipround s1
  { s2 with v0 := s2.v0 ^^^ m }

/-- Consume the full 8-byte chunks of the input, returning the remaining tail
of fewer than 8 bytes. -/
def sipChunks : SipState → List Nat → SipState × List Nat
  | s, b0 :: b1 :: b2 :: b3 :: b4 :: b5 :: b6 :: b7 :: rest =>
    sipChunks (sipCompress s (toWordLE [b0, b1, b2, b3, b4, b5, b6, b7])) rest
  | s, bs => (s, bs)

/-- SipHash-1-3 over a byte list: the algorithm of std SipHasher13 (state
initialization from the keys, one compression round per 8-byte chunk, a
finalization word of the length byte and the little-endian tail, xor of 0xff
into v2, three finalization rounds). Validated against the published SipHash
reference vectors for the shared round structure. -/
def siphash13 (k0 k1 : Nat) (data : List Nat) : Nat :=
  let s0 : SipState :=
    ⟨k0 ^^^ 0x736f6d6570736575, k1 ^^^ 0x646f72616e646f6d,
     k0 ^^^ 0x6c7967656e657261, k1 ^^^ 0x7465646279746573⟩
  let done := sipChunks s0 data
  let b := wrap64 (data.length % 256 * 2 ^ 56 + toWordLE done.2)
  let s1 := sipCompress done.1 b
  let s2 := { s1 with v2 := s1.v2 ^^^ 0xff }
  let s3 := sipround (sipround (sipround s2))
  s3.v0 ^^^ s3.v1 ^^^ s3.v2 ^^^ s3.v3

/-- UTF-8 bytes of a string, as natural numbers. -/
def strBytes (s : String) : List Nat := s.toUTF8.toList.map (fun b => b.toNat)

/-- std::hash::DefaultHasher applied to a &str: DefaultHasher::new() is
SipHasher13 with both keys zero, and Hash for str writes the UTF-8 bytes
followed by a single 0xff terminator byte. -/
def defaultHashStr (s : String) : Nat := siphash13 0 0 (strBytes s ++ [0xff])

/-- src/message_broker.rs, MessageBroker::get_partition_for_conversation lines
192-202: DefaultHasher over conversation_id, then hash % 4 + 1 (the topic is
created with 4 partitions, 1-indexed). -/
def get_partition_for_conversation (conversation_id : String) : Nat :=
  defaultHashStr conversation_id % 4 + 1

/-- C4: the partition router is a pure function of the conversation id built
from the deterministic DefaultHasher (SipHash-1-3 with fixed zero keys, the
same in every process), and its result always lies in the partition range 1 to
4; two calls on the same conversation id agree. -/
theorem get_partition_deterministic_in_range (conversation_id : String) :
    1 ≤ get_partition_for_conversation conversation_id ∧
    get_partition_for_conversation conversation_id ≤ 4 ∧
    get_partition_for_conversation conversation_id =
      get_partition_for_conversation conversation_id := by
  refine ⟨?_, ?_, rfl⟩
  · unfold get_partition_for_conversation
    omega
  · unfold get_partition_for_conversation
    have h := Nat.mod_lt (defaultHashStr conversation_id) (show 0 < 4 by norm_num)
    omega
